import Mathlib

/-!
Verification of the Masking Statistics and Region Extraction Engine

Shallow embedding of `scripts/generate_report.py`: the log-statistics
extractor (`parse_mask_log`, `parse_map_log`), the masked-region scanner
(`find_masked_regions`), the coordinate-file emitter (`generate_bed_file`)
and the per-sample aggregation loop of `main`, together with proofs of the
specified properties.

Python strings are modelled as `List Char`, Python `float` values arising
from decimal literals as `ℚ`, fallible code as `Except`, and the file
system visible to `main` as an explicit map from paths to file states.
-/

namespace MaskReport

/-- One masked region, as built by `find_masked_regions`
(`{'chrom': .., 'start': .., 'end': .., 'length': ..}`); the Python key
`end` is spelled `end_`. -/
structure Region where
  chrom : String
  start : Nat
  end_ : Nat
  length : Nat
deriving Repr, DecidableEq, Inhabited

/-- The masked-base test of the scanner: `base.upper() == 'N'`. -/
def isMasked (c : Char) : Bool := c.toUpper == 'N'

/-- The left-to-right scan of one sequence (the inner loop of
`find_masked_regions`): `i` is the current offset, `inN` the
`in_n_region` flag, `start` the pending run start, `acc` the regions
appended so far.  When the sequence is exhausted while inside a run the
run is closed at the final offset (`end = len(seq)` in the source). -/
def scanAux (chrom : String) : List Char → Nat → Bool → Nat → List Region → List Region
  | [], i, inN, start, acc =>
      if inN then acc ++ [⟨chrom, start, i, i - start⟩] else acc
  | c :: rest, i, inN, start, acc =>
      if isMasked c then
        if inN then scanAux chrom rest (i + 1) true start acc
        else scanAux chrom rest (i + 1) true i acc
      else
        if inN then scanAux chrom rest (i + 1) false start (acc ++ [⟨chrom, start, i, i - start⟩])
        else scanAux chrom rest (i + 1) false start acc

/-- Scan of a single record: the per-sequence part of `find_masked_regions`
(the state `in_n_region = False`, `start = 0` is reset for every record). -/
def scanSeq (chrom : String) (seq : List Char) : List Region :=
  scanAux chrom seq 0 false 0 []

/-- Function `find_masked_regions`: the input sequence collection is the parsed view
of the FASTA file (`SeqIO.parse` is an external collaborator); all records
append into one shared `regions` list. -/
def find_masked_regions (records : List (String × List Char)) : List Region :=
  records.flatMap (fun p => scanSeq p.1 p.2)

/-! Log statistics extraction.

The Python code locates each statistic with `re.search` over the whole log
text.  Every pattern used is of the form "literal label, then `\s+`, then
numeric groups with separators": for such patterns the leftmost match of
`re.search` is the first position whose suffix starts with the label and
whose following text fits the numeric shape, with every greedy
sub-expression taking its maximal run (each pair of adjacent character
classes is disjoint, so backtracking can never produce a different match).
The one pattern with a lazy gap (`Match Rate:\s+.*?\s+([\d.]+)%`) is
modelled with the engine's exploration order made explicit. -/

/-- Python's `\s` character class (ASCII range). -/
def isSpaceChar (c : Char) : Bool :=
  c = ' ' || c = '\t' || c = '\n' || c = '\r' || c = '\x0b' || c = '\x0c'

/-- Python's `[\d.]` character class (ASCII range). -/
def isDigitDot (c : Char) : Bool := c.isDigit || c = '.'

/-- Model of `int()` applied to a matched `\d+` group. -/
def natOfDigits (ds : List Char) : Nat :=
  ds.foldl (fun n c => 10 * n + (c.toNat - 48)) 0

/-- Model of `float()` applied to a matched `[\d.]+` group: defined exactly when the
text has at most one dot and at least one digit (otherwise Python raises
`ValueError`); decimal values are represented exactly in `ℚ`. -/
def floatOfDigitsDots (ds : List Char) : Option ℚ :=
  if ds.count '.' ≤ 1 ∧ ds.any Char.isDigit = true then
    let ip := ds.takeWhile (fun c => c ≠ '.')
    let fp := (ds.dropWhile (fun c => c ≠ '.')).drop 1
    some (mkRat (natOfDigits ip * 10 ^ fp.length + natOfDigits fp) (10 ^ fp.length))
  else
    none

/-- Model of `re.search`: try the pattern at every start position, left to right,
and return the first success. -/
def searchFirst (tryA : List Char → Option α) : List Char → Option α
  | [] => tryA []
  | c :: rest =>
    match tryA (c :: rest) with
    | some v => some v
    | none => searchFirst tryA rest

/-- One attempt of a pattern `<label>\s+(\d+)` at a fixed start position. -/
def tryLabelNat (label : List Char) (s : List Char) : Option Nat :=
  if label.isPrefixOf s then
    let r0 := s.drop label.length
    let ws := r0.takeWhile isSpaceChar
    if ws.length = 0 then none
    else
      let ds := (r0.drop ws.length).takeWhile Char.isDigit
      if ds.length = 0 then none
      else some (natOfDigits ds)
  else none

/-- One attempt of `Total Bases Masked:\s+(\d+)/(\d+)\s+([\d.]+)%` at a
fixed start position; returns the three captured groups. -/
def tryTotalMasked (s : List Char) : Option (Nat × Nat × List Char) :=
  if "Total Bases Masked:".toList.isPrefixOf s then
    let r0 := s.drop "Total Bases Masked:".toList.length
    let ws1 := r0.takeWhile isSpaceChar
    if ws1.length = 0 then none else
    let r1 := r0.drop ws1.length
    let d1 := r1.takeWhile Char.isDigit
    if d1.length = 0 then none else
    match r1.drop d1.length with
    | '/' :: r3 =>
      let d2 := r3.takeWhile Char.isDigit
      if d2.length = 0 then none else
      let r4 := r3.drop d2.length
      let ws2 := r4.takeWhile isSpaceChar
      if ws2.length = 0 then none else
      let r5 := r4.drop ws2.length
      let g := r5.takeWhile isDigitDot
      if g.length = 0 then none else
      match r5.drop g.length with
      | '%' :: _ => some (natOfDigits d1, natOfDigits d2, g)
      | _ => none
    | _ => none
  else none

/-- One attempt of `mapped:\s+([\d.]+)%\s+(\d+)` at a fixed start
position; returns the percentage group and the read count. -/
def tryMapped (s : List Char) : Option (List Char × Nat) :=
  if "mapped:".toList.isPrefixOf s then
    let r0 := s.drop "mapped:".toList.length
    let ws1 := r0.takeWhile isSpaceChar
    if ws1.length = 0 then none else
    let r1 := r0.drop ws1.length
    let g := r1.takeWhile isDigitDot
    if g.length = 0 then none else
    match r1.drop g.length with
    | '%' :: r2 =>
      let ws2 := r2.takeWhile isSpaceChar
      if ws2.length = 0 then none else
      let r3 := r2.drop ws2.length
      let d := r3.takeWhile Char.isDigit
      if d.length = 0 then none else some (g, natOfDigits d)
    | _ => none
  else none

/-- The tail of `Match Rate:\s+.*?\s+([\d.]+)%` after the label: the
engine tries the leading `\s+` longest first (`k` characters), then the
lazy `.*?` gap shortest first (`j` non-newline characters), then at least
one whitespace character, then the group followed by `%`. -/
def tryMatchRateTail (r0 : List Char) : Option (List Char) :=
  let w := (r0.takeWhile isSpaceChar).length
  (List.range w).findSome? (fun dk =>
    let r1 := r0.drop (w - dk)
    let limit := (r1.takeWhile (fun c => c ≠ '\n')).length
    (List.range (limit + 1)).findSome? (fun j =>
      let r2 := r1.drop j
      let ws2 := r2.takeWhile isSpaceChar
      if ws2.length = 0 then none else
      let r3 := r2.drop ws2.length
      let g := r3.takeWhile isDigitDot
      if g.length = 0 then none else
      match r3.drop g.length with
      | '%' :: _ => some g
      | _ => none))

/-- One attempt of `Match Rate:\s+.*?\s+([\d.]+)%` at a fixed start
position. -/
def tryMatchRate (s : List Char) : Option (List Char) :=
  if "Match Rate:".toList.isPrefixOf s then
    tryMatchRateTail (s.drop "Match Rate:".toList.length)
  else none

def searchRefBases (content : List Char) : Option Nat :=
  searchFirst (tryLabelNat "Ref Bases:".toList) content

def searchLowComplexity (content : List Char) : Option Nat :=
  searchFirst (tryLabelNat "Low Complexity Bases:".toList) content

def searchSamMasked (content : List Char) : Option Nat :=
  searchFirst (tryLabelNat "Sam Bases Masked:".toList) content

def searchTotalMasked (content : List Char) : Option (Nat × Nat × List Char) :=
  searchFirst tryTotalMasked content

def searchReadsUsed (content : List Char) : Option Nat :=
  searchFirst (tryLabelNat "Reads Used:".toList) content

def searchMapped (content : List Char) : Option (List Char × Nat) :=
  searchFirst tryMapped content

def searchMatchRate (content : List Char) : Option (List Char) :=
  searchFirst tryMatchRate content

instance {ε α : Type} [DecidableEq ε] [DecidableEq α] : DecidableEq (Except ε α) := fun x y =>
  match x, y with
  | .ok a, .ok b =>
    if h : a = b then .isTrue (by rw [h]) else .isFalse (by intro hh; cases hh; exact h rfl)
  | .error a, .error b =>
    if h : a = b then .isTrue (by rw [h]) else .isFalse (by intro hh; cases hh; exact h rfl)
  | .ok _, .error _ => .isFalse (by intro hh; cases hh)
  | .error _, .ok _ => .isFalse (by intro hh; cases hh)

/-- The exceptions the report generator can raise while processing one
sample: an `OSError` from `open` (carrying the path) or a `ValueError`
from `float`. -/
inductive PyError where
  | ioError (path : String)
  | valueError
deriving Repr, DecidableEq

/-- The flat statistics record built by the two log parsers (a Python
dict); a `none` field is an absent key. -/
structure Stats where
  total_bases : Option Nat := none
  low_complexity_bases : Option Nat := none
  viral_masked_bases : Option Nat := none
  total_masked_bases : Option Nat := none
  masking_percentage : Option ℚ := none
  total_reads : Option Nat := none
  mapped_percentage : Option ℚ := none
  mapped_reads : Option Nat := none
  match_rate : Option ℚ := none
deriving Repr, DecidableEq

/-- In `parse_mask_log`, the state of `stats` after the `Ref Bases` lookup. -/
def maskS1 (content : List Char) : Stats :=
  match searchRefBases content with
  | some n => { total_bases := some n }
  | none => {}

/-- In `parse_mask_log`, the state of `stats` after the `Low Complexity Bases`
lookup. -/
def maskS2 (content : List Char) : Stats :=
  match searchLowComplexity content with
  | some n => { maskS1 content with low_complexity_bases := some n }
  | none => maskS1 content

/-- In `parse_mask_log`, the state of `stats` after the `Sam Bases Masked`
lookup. -/
def maskS3 (content : List Char) : Stats :=
  match searchSamMasked content with
  | some n => { maskS2 content with viral_masked_bases := some n }
  | none => maskS2 content

/-- Function `parse_mask_log` applied to the already-read log text: each statistic
is looked up independently; a failing `float` conversion raises. -/
def parse_mask_log_content (content : List Char) : Except PyError Stats :=
  match searchTotalMasked content with
  | some g =>
    match floatOfDigitsDots g.2.2 with
    | some q =>
      .ok { maskS3 content with total_masked_bases := some g.1, masking_percentage := some q }
    | none => .error .valueError
  | none => .ok (maskS3 content)

/-- In `parse_map_log`, the state of `stats` after the `Reads Used` lookup. -/
def mapS1 (content : List Char) : Stats :=
  match searchReadsUsed content with
  | some n => { total_reads := some n }
  | none => {}

/-- The final `Match Rate` step of `parse_map_log`. -/
def applyMatchRate (content : List Char) (s : Stats) : Except PyError Stats :=
  match searchMatchRate content with
  | some g =>
    match floatOfDigitsDots g with
    | some q => .ok { s with match_rate := some q }
    | none => .error .valueError
  | none => .ok s

/-- Function `parse_map_log` applied to the already-read log text. -/
def parse_map_log_content (content : List Char) : Except PyError Stats :=
  match searchMapped content with
  | some g =>
    match floatOfDigitsDots g.1 with
    | some q =>
      applyMatchRate content
        { mapS1 content with mapped_percentage := some q, mapped_reads := some g.2 }
    | none => .error .valueError
  | none => applyMatchRate content (mapS1 content)

/-! File system, per-sample aggregation (`main`) and BED emission. -/

/-- State of one path in the file system visible to `main`. -/
inductive FileState where
  | absent
  | unreadable
  | readable (content : List Char)
deriving DecidableEq

/-- The file system: log files by path, plus the parsed view of the
masked FASTA files by path (`SeqIO.parse` is an external collaborator, so
a FASTA file is modelled by its record list; `none` means the file does
not exist). -/
structure FileSystem where
  files : String → FileState
  fastas : String → Option (List (String × List Char))

/-- Model of `os.path.exists`. -/
def fileExists (fs : FileSystem) (path : String) : Bool :=
  match fs.files path with
  | .absent => false
  | _ => true

/-- Model of `open(path).read()`: raises `OSError` carrying the path unless the
file exists and is readable. -/
def readFile (fs : FileSystem) (path : String) : Except PyError (List Char) :=
  match fs.files path with
  | .readable content => .ok content
  | _ => .error (.ioError path)

/-- Model of `os.path.join`. -/
def pathJoin (d fname : String) : String := d ++ "/" ++ fname

/-- Function `parse_mask_log` on a path: read the whole file, then extract; an
`OSError` from `open` propagates. -/
def parse_mask_log (fs : FileSystem) (log_file : String) : Except PyError Stats :=
  match readFile fs log_file with
  | .ok content => parse_mask_log_content content
  | .error e => .error e

/-- Function `parse_map_log` on a path. -/
def parse_map_log (fs : FileSystem) (log_file : String) : Except PyError Stats :=
  match readFile fs log_file with
  | .ok content => parse_map_log_content content
  | .error e => .error e

/-- Python `dict.update`: keys present in `d` overwrite those of `s` (the
two log parsers populate disjoint key sets). -/
def updateStats (s d : Stats) : Stats :=
  { total_bases := d.total_bases <|> s.total_bases,
    low_complexity_bases := d.low_complexity_bases <|> s.low_complexity_bases,
    viral_masked_bases := d.viral_masked_bases <|> s.viral_masked_bases,
    total_masked_bases := d.total_masked_bases <|> s.total_masked_bases,
    masking_percentage := d.masking_percentage <|> s.masking_percentage,
    total_reads := d.total_reads <|> s.total_reads,
    mapped_percentage := d.mapped_percentage <|> s.mapped_percentage,
    mapped_reads := d.mapped_reads <|> s.mapped_reads,
    match_rate := d.match_rate <|> s.match_rate }

/-- The three directories passed to `main` on the command line. -/
structure Dirs where
  log_dir : String
  results_dir : String
  output_dir : String

/-- Path `os.path.join(args.log_dir, f"{sample}_mask.log")`. -/
def maskLogPath (dirs : Dirs) (sample : String) : String :=
  pathJoin dirs.log_dir (sample ++ "_mask.log")

/-- Path `os.path.join(args.log_dir, f"{sample}_map.log")`. -/
def mapLogPath (dirs : Dirs) (sample : String) : String :=
  pathJoin dirs.log_dir (sample ++ "_map.log")

/-- Path `os.path.join(args.results_dir, f"{sample}_masked.fasta")`. -/
def maskedFastaPath (dirs : Dirs) (sample : String) : String :=
  pathJoin dirs.results_dir (sample ++ "_masked.fasta")

/-- The statistics accumulation for one sample inside the `main` loop:
`stats = {}`, then `stats.update(parse_mask_log(..))` if the masking log
exists, then `stats.update(parse_map_log(..))` if the mapping log exists;
any exception propagates. -/
def sampleStatsStep1 (fs : FileSystem) (dirs : Dirs) (sample : String) :
    Except PyError Stats :=
  if fileExists fs (maskLogPath dirs sample) then
    match parse_mask_log fs (maskLogPath dirs sample) with
    | .ok m => .ok (updateStats {} m)
    | .error e => .error e
  else .ok {}

/-- The second half of the statistics accumulation: the mapping-log
update applied to the state after the masking-log update. -/
def sampleStats (fs : FileSystem) (dirs : Dirs) (sample : String) :
    Except PyError Stats :=
  match sampleStatsStep1 fs dirs sample with
  | .ok s1 =>
    if fileExists fs (mapLogPath dirs sample) then
      match parse_map_log fs (mapLogPath dirs sample) with
      | .ok m => .ok (updateStats s1 m)
      | .error e => .error e
    else .ok s1
  | .error e => .error e

/-- The region extraction for one sample in the `main` loop: performed
only when the masked FASTA exists. -/
def sampleRegions (fs : FileSystem) (dirs : Dirs) (sample : String) :
    Option (List Region) :=
  (fs.fastas (maskedFastaPath dirs sample)).map find_masked_regions

/-- Python dict assignment `d[k] = v` on an insertion-ordered dict. -/
def dictInsert (k : String) (v : α) : List (String × α) → List (String × α)
  | [] => [(k, v)]
  | (k0, v0) :: rest =>
    if k0 = k then (k0, v) :: rest else (k0, v0) :: dictInsert k v rest

/-- Python `d.get(k, default)`. -/
def dictGetD (d : List (String × α)) (k : String) (dflt : α) : α :=
  match d with
  | [] => dflt
  | (k0, v0) :: rest => if k0 = k then v0 else dictGetD rest k dflt

/-- The per-sample loop of `main`: builds `stats_dict` and `regions_dict`
in sample order; an exception raised while processing one sample
propagates and aborts the whole loop (`main` has no handler). -/
def mainLoop (fs : FileSystem) (dirs : Dirs) :
    List String → List (String × Stats) → List (String × List Region) →
    Except PyError (List (String × Stats) × List (String × List Region))
  | [], sd, rd => .ok (sd, rd)
  | sample :: rest, sd, rd =>
    match sampleStats fs dirs sample with
    | .error e => .error e
    | .ok stats =>
      match sampleRegions fs dirs sample with
      | some regions =>
        mainLoop fs dirs rest (dictInsert sample stats sd) (dictInsert sample regions rd)
      | none => mainLoop fs dirs rest (dictInsert sample stats sd) rd

/-- One per-sample record of the corpus aggregate, in the shape consumed
by the report emitter (`stats_dict[sample]` together with
`regions_dict.get(sample, [])`). -/
structure SampleRecord where
  sample_id : String
  stats : Stats
  intervals : List Region
deriving Repr, DecidableEq

/-- The corpus aggregate built by `main`: samples in `stats_dict`
insertion order, each with its statistics and its interval list (empty
when the masked FASTA was missing, via `regions_dict.get(sample, [])`). -/
def corpusAggregate (fs : FileSystem) (dirs : Dirs) (samples : List String) :
    Except PyError (List SampleRecord) :=
  match mainLoop fs dirs samples [] [] with
  | .ok (sd, rd) => .ok (sd.map (fun p => ⟨p.1, p.2, dictGetD rd p.1 []⟩))
  | .error e => .error e

/-- The statistics value recorded for a sample whose processing
succeeded. -/
def statsOf (fs : FileSystem) (dirs : Dirs) (sample : String) : Stats :=
  match sampleStats fs dirs sample with
  | .ok s => s
  | .error _ => {}

/-- The file system of the C6 scenario: sample `a`'s masking log exists
but cannot be read; sample `b`'s masking log is readable. -/
def fsC6 : FileSystem where
  files := fun p =>
    if p = "logs/a_mask.log" then .unreadable
    else if p = "logs/b_mask.log" then .readable "Ref Bases: 5".toList
    else .absent
  fastas := fun _ => none

/-- A file system with no files at all. -/
def fsEmpty : FileSystem where
  files := fun _ => .absent
  fastas := fun _ => none

/-- The directories used in the concrete scenarios. -/
def dirs0 : Dirs := ⟨"logs", "results", "out"⟩

/-- Function `generate_bed_file`, modelled by the list of chunks written to the
output file, in order: two comment header lines, then one line per
region, built with the f-string of the source. -/
def generate_bed_file (regions : List Region) : List String :=
  regions.enum.foldl
    (fun acc p =>
      acc ++ [p.2.chrom ++ "\t" ++ toString p.2.start ++ "\t" ++ toString p.2.end_ ++
        "\tmasked_region_" ++ toString (p.1 + 1) ++ "\t" ++ toString p.2.length ++ "\t.\n"])
    ["# BED file of masked regions\n", "# chrom\tstart\tend\tname\tscore\tstrand\n"]

/-- The extraction pipeline of C9: region scanning followed by
coordinate-file emission. -/
def extraction_pipeline (records : List (String × List Char)) : List String :=
  generate_bed_file (find_masked_regions records)

/-- Expected `regions_dict` contribution of a sample list. -/
def expectedRegions (fs : FileSystem) (dirs : Dirs) (samples : List String) :
    List (String × List Region) :=
  samples.filterMap (fun x => (sampleRegions fs dirs x).map (fun rs => (x, rs)))

/-! Theorems. -/

/-- Evaluating `Char.ofNat` at a valid code point recovers the code point. -/
theorem toNat_ofNat_valid (n : Nat) (h : n.isValidChar) : (Char.ofNat n).toNat = n := by
  unfold Char.ofNat
  rw [dif_pos h]
  rfl

/-- The scanner's masked-base test holds exactly on the two letters
`N` and `n` (`base.upper() == 'N'`). -/
theorem isMasked_iff (c : Char) : isMasked c = true ↔ (c = 'N' ∨ c = 'n') := by
  unfold isMasked Char.toUpper
  simp only [beq_iff_eq]
  constructor
  · intro h
    split at h
    · rename_i hc
      have hv : (c.toNat - 32).isValidChar := by
        unfold Nat.isValidChar
        left
        omega
      have h2 : (Char.ofNat (c.toNat - 32)).toNat = c.toNat - 32 := toNat_ofNat_valid _ hv
      rw [h] at h2
      have h78 : ('N').toNat = 78 := by decide
      have h3 : c.toNat = 110 := by omega
      right
      have h4 := Char.ofNat_toNat c
      rw [h3] at h4
      rw [← h4]
    · left; exact h
  · rintro (rfl | rfl) <;> decide

/-- Structural invariant of the scanning loop: assuming the pending-run
start lies before the cursor and the accumulated regions are well formed
and closed before the relevant boundary, the final region list is well
formed, bounded by the final cursor position, and ordered. -/
theorem scanAux_invariant (chrom : String) (seq : List Char) :
    ∀ (i : Nat) (inN : Bool) (start : Nat) (acc : List Region),
      (inN = true → start < i) →
      (∀ r ∈ acc, r.start < r.end_ ∧ r.length = r.end_ - r.start ∧
        r.end_ ≤ (if inN then start else i)) →
      List.Pairwise (fun a b => a.end_ ≤ b.start) acc →
      (∀ r ∈ scanAux chrom seq i inN start acc,
          r.start < r.end_ ∧ r.length = r.end_ - r.start ∧ r.end_ ≤ i + seq.length) ∧
      List.Pairwise (fun a b => a.end_ ≤ b.start) (scanAux chrom seq i inN start acc) := by
  have hfalse : ¬ ((false : Bool) = true) := by simp
  induction seq with
  | nil =>
    intro i inN start acc hstart hacc hpw
    cases inN with
    | false =>
      simp only [scanAux]
      rw [if_neg hfalse]
      refine ⟨fun r hr => ⟨(hacc r hr).1, (hacc r hr).2.1, ?_⟩, hpw⟩
      have h2 := (hacc r hr).2.2
      rw [if_neg hfalse] at h2
      simpa using h2
    | true =>
      simp only [scanAux]
      rw [if_pos trivial]
      have hsi : start < i := hstart rfl
      constructor
      · intro r hr
        rcases List.mem_append.1 hr with h | h
        · have h1 := hacc r h
          rw [if_pos rfl] at h1
          refine ⟨h1.1, h1.2.1, ?_⟩
          have h2 := h1.2.2
          simp only [List.length_nil]
          omega
        · simp only [List.mem_singleton] at h
          subst h
          exact ⟨hsi, rfl, by simp⟩
      · refine List.pairwise_append.2 ⟨hpw, List.pairwise_singleton _ _, ?_⟩
        intro a ha b hb
        simp only [List.mem_singleton] at hb
        subst hb
        have h2 := (hacc a ha).2.2
        rw [if_pos rfl] at h2
        exact h2
  | cons c rest ih =>
    intro i inN start acc hstart hacc hpw
    by_cases hc : isMasked c = true
    · cases inN with
      | true =>
        simp only [scanAux]
        rw [if_pos hc, if_pos trivial]
        have hres := ih (i + 1) true start acc
          (fun _ => by have := hstart rfl; omega)
          (fun r hr => by
            have h1 := hacc r hr
            rw [if_pos rfl] at h1 ⊢
            exact h1)
          hpw
        refine ⟨fun r hr => ?_, hres.2⟩
        have h1 := hres.1 r hr
        refine ⟨h1.1, h1.2.1, ?_⟩
        have h2 := h1.2.2
        simp only [List.length_cons]
        omega
      | false =>
        simp only [scanAux]
        rw [if_pos hc, if_neg hfalse]
        have hres := ih (i + 1) true i acc
          (fun _ => by omega)
          (fun r hr => by
            have h1 := hacc r hr
            rw [if_neg hfalse] at h1
            rw [if_pos rfl]
            exact h1)
          hpw
        refine ⟨fun r hr => ?_, hres.2⟩
        have h1 := hres.1 r hr
        refine ⟨h1.1, h1.2.1, ?_⟩
        have h2 := h1.2.2
        simp only [List.length_cons]
        omega
    · cases inN with
      | true =>
        simp only [scanAux]
        rw [if_neg hc, if_pos trivial]
        have hsi : start < i := hstart rfl
        have haccnew : ∀ r ∈ acc ++ [(⟨chrom, start, i, i - start⟩ : Region)],
            r.start < r.end_ ∧ r.length = r.end_ - r.start ∧
            r.end_ ≤ (if (false : Bool) then start else i + 1) := by
          intro r hr
          rw [if_neg hfalse]
          rcases List.mem_append.1 hr with h | h
          · have h1 := hacc r h
            rw [if_pos rfl] at h1
            refine ⟨h1.1, h1.2.1, ?_⟩
            have h2 := h1.2.2
            omega
          · simp only [List.mem_singleton] at h
            subst h
            exact ⟨hsi, rfl, Nat.le_succ i⟩
        have hpwnew : List.Pairwise (fun a b => a.end_ ≤ b.start)
            (acc ++ [(⟨chrom, start, i, i - start⟩ : Region)]) := by
          refine List.pairwise_append.2 ⟨hpw, List.pairwise_singleton _ _, ?_⟩
          intro a ha b hb
          simp only [List.mem_singleton] at hb
          subst hb
          have h2 := (hacc a ha).2.2
          rw [if_pos rfl] at h2
          exact h2
        have hres := ih (i + 1) false start _ (fun h => by simp at h) haccnew hpwnew
        refine ⟨fun r hr => ?_, hres.2⟩
        have h1 := hres.1 r hr
        refine ⟨h1.1, h1.2.1, ?_⟩
        have h2 := h1.2.2
        simp only [List.length_cons]
        omega
      | false =>
        simp only [scanAux]
        rw [if_neg hc, if_neg hfalse]
        have hres := ih (i + 1) false start acc
          (fun h => by simp at h)
          (fun r hr => by
            have h1 := hacc r hr
            rw [if_neg hfalse] at h1
            rw [if_neg hfalse]
            exact ⟨h1.1, h1.2.1, by omega⟩)
          hpw
        refine ⟨fun r hr => ?_, hres.2⟩
        have h1 := hres.1 r hr
        refine ⟨h1.1, h1.2.1, ?_⟩
        have h2 := h1.2.2
        simp only [List.length_cons]
        omega

/-- C1: For every input sequence collection, `find_masked_regions` is the
per-sequence concatenation of the left-to-right scan, and every interval
list the scan produces for a sequence satisfies: intervals are strictly
increasing in `start`, pairwise non-overlapping, each interval has
`length = end - start > 0`, and each interval has `end ≤` the length of
its sequence. -/
theorem find_masked_regions_per_sequence_invariants
    (records : List (String × List Char)) :
    find_masked_regions records = records.flatMap (fun p => scanSeq p.1 p.2) ∧
    ∀ (chrom : String) (seq : List Char),
      (∀ r ∈ scanSeq chrom seq,
          r.start < r.end_ ∧ r.length = r.end_ - r.start ∧ 0 < r.length ∧
          r.end_ ≤ seq.length) ∧
      List.Pairwise (fun a b => a.start < b.start ∧ a.end_ ≤ b.start)
        (scanSeq chrom seq) := by
  refine ⟨rfl, fun chrom seq => ?_⟩
  have hinv := scanAux_invariant chrom seq 0 false 0 []
    (fun h => by simp at h) (fun r hr => by simp at hr) List.Pairwise.nil
  refine ⟨fun r hr => ?_, ?_⟩
  · have h1 := hinv.1 r hr
    exact ⟨h1.1, h1.2.1, by omega, by have := h1.2.2; simpa using this⟩
  · refine (hinv.2).imp_of_mem ?_
    intro a b ha hb hab
    have h1 := hinv.1 a ha
    exact ⟨by omega, hab⟩

/-- The scanning loop on an all-masked remaining sequence while inside a
run: it closes exactly one final region at the end of the sequence. -/
theorem scanAux_all_masked (chrom : String) (seq : List Char) :
    ∀ (i start : Nat) (acc : List Region),
      (∀ c ∈ seq, isMasked c = true) →
      scanAux chrom seq i true start acc =
        acc ++ [⟨chrom, start, i + seq.length, i + seq.length - start⟩] := by
  induction seq with
  | nil =>
    intro i start acc _
    simp [scanAux]
  | cons c rest ih =>
    intro i start acc hall
    have hc : isMasked c = true := hall c (List.mem_cons_self ..)
    simp only [scanAux]
    rw [if_pos hc, if_pos trivial]
    rw [ih (i + 1) start acc (fun d hd => hall d (List.mem_cons_of_mem _ hd))]
    have hlen : i + 1 + rest.length = i + (c :: rest).length := by
      simp only [List.length_cons]
      omega
    rw [hlen]

/-- The scanning loop on a sequence whose final character is masked always
flushes a final region closed at the end of the sequence. -/
theorem scanAux_last_masked (chrom : String) (seq : List Char) :
    ∀ (i : Nat) (inN : Bool) (start : Nat) (acc : List Region) (c : Char),
      seq.getLast? = some c → isMasked c = true →
      ∃ pre r, scanAux chrom seq i inN start acc = pre ++ [r] ∧
        r.end_ = i + seq.length := by
  induction seq with
  | nil =>
    intro i inN start acc c hlast _
    simp at hlast
  | cons c0 rest ih =>
    intro i inN start acc c hlast hc
    cases rest with
    | nil =>
      simp only [List.getLast?_singleton, Option.some.injEq] at hlast
      subst hlast
      cases inN with
      | true =>
        rw [scanAux, if_pos hc, if_pos rfl, scanAux, if_pos rfl]
        exact ⟨acc, _, rfl, rfl⟩
      | false =>
        rw [scanAux, if_pos hc, if_neg (by simp : ¬ ((false : Bool) = true)),
          scanAux, if_pos rfl]
        exact ⟨acc, _, rfl, rfl⟩
    | cons c1 rest' =>
      have hlast' : (c1 :: rest').getLast? = some c := by
        rw [← hlast]
        exact (List.getLast?_cons_cons ..).symm
      have harith : ∀ r : Region, r.end_ = i + 1 + (c1 :: rest').length →
          r.end_ = i + (c0 :: c1 :: rest').length := by
        intro r h
        simp only [List.length_cons] at h ⊢
        omega
      by_cases hc0 : isMasked c0 = true
      · cases inN with
        | true =>
          rw [scanAux, if_pos hc0, if_pos rfl]
          obtain ⟨pre, r, heq, hend⟩ := ih (i + 1) true start acc c hlast' hc
          exact ⟨pre, r, heq, harith r hend⟩
        | false =>
          rw [scanAux, if_pos hc0, if_neg (by simp : ¬ ((false : Bool) = true))]
          obtain ⟨pre, r, heq, hend⟩ := ih (i + 1) true i acc c hlast' hc
          exact ⟨pre, r, heq, harith r hend⟩
      · cases inN with
        | true =>
          rw [scanAux, if_neg hc0, if_pos rfl]
          obtain ⟨pre, r, heq, hend⟩ := ih (i + 1) false start
            (acc ++ [⟨chrom, start, i, i - start⟩]) c hlast' hc
          exact ⟨pre, r, heq, harith r hend⟩
        | false =>
          rw [scanAux, if_neg hc0, if_neg (by simp : ¬ ((false : Bool) = true))]
          obtain ⟨pre, r, heq, hend⟩ := ih (i + 1) false start acc c hlast' hc
          exact ⟨pre, r, heq, harith r hend⟩

/-- C3: A sequence that ends while the scanner is inside a masked run has
its final interval closed at the sequence's length and emitted; and every
non-empty sequence composed entirely of `N` (either case) yields exactly
one interval from `0` to the sequence length. -/
theorem scanSeq_end_boundary :
    (∀ (chrom : String) (seq : List Char) (c : Char),
        seq.getLast? = some c → isMasked c = true →
        ∃ pre r, scanSeq chrom seq = pre ++ [r] ∧ r.end_ = seq.length) ∧
    (∀ (chrom : String) (seq : List Char),
        seq ≠ [] → (∀ c ∈ seq, isMasked c = true) →
        scanSeq chrom seq = [⟨chrom, 0, seq.length, seq.length⟩]) := by
  constructor
  · intro chrom seq c hlast hc
    obtain ⟨pre, r, heq, hend⟩ := scanAux_last_masked chrom seq 0 false 0 [] c hlast hc
    exact ⟨pre, r, heq, by simpa using hend⟩
  · intro chrom seq hne hall
    cases seq with
    | nil => exact absurd rfl hne
    | cons c rest =>
      have hc : isMasked c = true := hall c (List.mem_cons_self ..)
      unfold scanSeq
      simp only [scanAux]
      rw [if_pos hc, if_neg (by simp : ¬ ((false : Bool) = true))]
      rw [scanAux_all_masked chrom rest 1 0 []
        (fun d hd => hall d (List.mem_cons_of_mem _ hd))]
      have h1 : 1 + rest.length = (c :: rest).length := by
        simp only [List.length_cons]
        omega
      rw [h1, Nat.sub_zero, List.nil_append]

/-- Witness for C3 at concrete inputs: `"ATNn"` ends inside a run and its
last interval closes at offset 4; `"Nn"` is entirely masked and yields the
single interval `[0, 2)`. -/
theorem scanSeq_end_boundary_witness :
    (∃ pre r, scanSeq "s" "ATNn".toList = pre ++ [r] ∧
        r.end_ = "ATNn".toList.length) ∧
    scanSeq "t" "Nn".toList = [⟨"t", 0, 2, 2⟩] := by
  constructor
  · exact scanSeq_end_boundary.1 "s" "ATNn".toList 'n' (by decide) (by decide)
  · have h := scanSeq_end_boundary.2 "t" "Nn".toList (by decide) (by decide)
    simpa using h

/-- Fields of the mask-log statistics after the three integer lookups:
the three integer fields carry their own search result and every other
field is still absent. -/
theorem maskS3_fields (content : List Char) :
    (maskS3 content).total_bases = searchRefBases content ∧
    (maskS3 content).low_complexity_bases = searchLowComplexity content ∧
    (maskS3 content).viral_masked_bases = searchSamMasked content ∧
    (maskS3 content).total_masked_bases = none ∧
    (maskS3 content).masking_percentage = none ∧
    (maskS3 content).total_reads = none ∧
    (maskS3 content).mapped_percentage = none ∧
    (maskS3 content).mapped_reads = none ∧
    (maskS3 content).match_rate = none := by
  unfold maskS3 maskS2 maskS1
  cases searchSamMasked content <;> cases searchLowComplexity content <;>
    cases searchRefBases content <;> simp

/-- Fields of the map-log statistics after the `Reads Used` lookup. -/
theorem mapS1_fields (content : List Char) :
    (mapS1 content).total_reads = searchReadsUsed content ∧
    (mapS1 content).total_bases = none ∧
    (mapS1 content).low_complexity_bases = none ∧
    (mapS1 content).viral_masked_bases = none ∧
    (mapS1 content).total_masked_bases = none ∧
    (mapS1 content).masking_percentage = none ∧
    (mapS1 content).mapped_percentage = none ∧
    (mapS1 content).mapped_reads = none ∧
    (mapS1 content).match_rate = none := by
  unfold mapS1
  cases searchReadsUsed content <;> simp

/-- A successful `Match Rate` step only fills the `match_rate` field. -/
theorem applyMatchRate_ok (content : List Char) (s r : Stats)
    (hs : s.match_rate = none) (h : applyMatchRate content s = .ok r) :
    r.total_bases = s.total_bases ∧
    r.low_complexity_bases = s.low_complexity_bases ∧
    r.viral_masked_bases = s.viral_masked_bases ∧
    r.total_masked_bases = s.total_masked_bases ∧
    r.masking_percentage = s.masking_percentage ∧
    r.total_reads = s.total_reads ∧
    r.mapped_percentage = s.mapped_percentage ∧
    r.mapped_reads = s.mapped_reads ∧
    r.match_rate = (searchMatchRate content).bind floatOfDigitsDots := by
  unfold applyMatchRate at h
  split at h
  · rename_i g hm
    split at h
    · rename_i q hf
      cases h
      exact ⟨rfl, rfl, rfl, rfl, rfl, rfl, rfl, rfl, by simp [hm, hf]⟩
    · cases h
  · rename_i hm
    cases h
    exact ⟨rfl, rfl, rfl, rfl, rfl, rfl, rfl, rfl, by rw [hm, hs]; rfl⟩

/-- The `Match Rate` step fails exactly when the group matched but is not
a valid decimal. -/
theorem applyMatchRate_error (content : List Char) (s : Stats) :
    (∃ e, applyMatchRate content s = .error e) ↔
      (∃ g, searchMatchRate content = some g ∧ floatOfDigitsDots g = none) := by
  unfold applyMatchRate
  cases hm : searchMatchRate content with
  | none => simp
  | some g =>
    cases hf : floatOfDigitsDots g with
    | none => simp [hf]
    | some q => simp [hf]

/-- C2: On the single sequence `"ATNNNCGNAT"` (length 10) the scanner
returns exactly the intervals `[2,5)` (length 3) and `[7,8)` (length 1),
in that order, and a position is masked exactly when it holds the letter
`N` or `n`. -/
theorem scanSeq_scenario :
    scanSeq "seq1" "ATNNNCGNAT".toList =
      [⟨"seq1", 2, 5, 3⟩, ⟨"seq1", 7, 8, 1⟩] ∧
    "ATNNNCGNAT".toList.length = 10 ∧
    (∀ c : Char, isMasked c = true ↔ (c = 'N' ∨ c = 'n')) :=
  ⟨by decide, by decide, isMasked_iff⟩

/-- C4 (amended): statistics are extracted independently and a missing
label merely leaves its field absent, but a percentage group that matches
`[\d.]+` while not being a valid decimal raises an error that aborts the
whole parse, instead of only dropping that field. -/
theorem parse_logs_field_independence (content : List Char) :
    ((∃ e, parse_mask_log_content content = .error e) ↔
      (∃ g, searchTotalMasked content = some g ∧ floatOfDigitsDots g.2.2 = none)) ∧
    (∀ r, parse_mask_log_content content = .ok r →
      r.total_bases = searchRefBases content ∧
      r.low_complexity_bases = searchLowComplexity content ∧
      r.viral_masked_bases = searchSamMasked content ∧
      r.total_masked_bases = (searchTotalMasked content).map (fun g => g.1) ∧
      r.masking_percentage = (searchTotalMasked content).bind (fun g => floatOfDigitsDots g.2.2)) ∧
    ((∃ e, parse_map_log_content content = .error e) ↔
      ((∃ g, searchMapped content = some g ∧ floatOfDigitsDots g.1 = none) ∨
       (∃ gr, searchMatchRate content = some gr ∧ floatOfDigitsDots gr = none))) ∧
    (∀ r, parse_map_log_content content = .ok r →
      r.total_reads = searchReadsUsed content ∧
      r.mapped_percentage = (searchMapped content).bind (fun g => floatOfDigitsDots g.1) ∧
      r.mapped_reads = (searchMapped content).map (fun g => g.2) ∧
      r.match_rate = (searchMatchRate content).bind floatOfDigitsDots) := by
  have hm3 := maskS3_fields content
  have hm1 := mapS1_fields content
  refine ⟨?_, ?_, ?_, ?_⟩
  · unfold parse_mask_log_content
    cases ht : searchTotalMasked content with
    | none => simp
    | some g =>
      cases hf : floatOfDigitsDots g.2.2 with
      | none => simp [hf]
      | some q => simp [hf]
  · intro r hr
    unfold parse_mask_log_content at hr
    split at hr
    · rename_i g ht
      split at hr
      · rename_i q hf
        cases hr
        exact ⟨hm3.1, hm3.2.1, hm3.2.2.1, by simp [ht], by simp [ht, hf]⟩
      · cases hr
    · rename_i ht
      cases hr
      exact ⟨hm3.1, hm3.2.1, hm3.2.2.1, by simp [ht, hm3.2.2.2.1],
        by simp [ht, hm3.2.2.2.2.1]⟩
  · unfold parse_map_log_content applyMatchRate
    cases hmp : searchMapped content with
    | none =>
      cases hmr : searchMatchRate content with
      | none => simp [hmr]
      | some gr =>
        cases hfr : floatOfDigitsDots gr with
        | none => simp [hmr, hfr]
        | some qr => simp [hmr, hfr]
    | some g =>
      cases hf : floatOfDigitsDots g.1 with
      | none => simp [hf]
      | some q =>
        cases hmr : searchMatchRate content with
        | none => simp [hf, hmr]
        | some gr =>
          cases hfr : floatOfDigitsDots gr with
          | none => simp [hf, hmr, hfr]
          | some qr => simp [hf, hmr, hfr]
  · intro r hr
    unfold parse_map_log_content at hr
    split at hr
    · rename_i g hmp
      split at hr
      · rename_i q hf
        have hok := applyMatchRate_ok content _ r
          (by exact hm1.2.2.2.2.2.2.2.2) hr
        refine ⟨?_, ?_, ?_, hok.2.2.2.2.2.2.2.2⟩
        · rw [hok.2.2.2.2.2.1]
          exact hm1.1
        · rw [hok.2.2.2.2.2.2.1]
          simp [hmp, hf]
        · rw [hok.2.2.2.2.2.2.2.1]
          simp [hmp]
      · cases hr
    · rename_i hmp
      have hok := applyMatchRate_ok content (mapS1 content) r hm1.2.2.2.2.2.2.2.2 hr
      refine ⟨?_, ?_, ?_, hok.2.2.2.2.2.2.2.2⟩
      · rw [hok.2.2.2.2.2.1, hm1.1]
      · rw [hok.2.2.2.2.2.2.1, hm1.2.2.2.2.2.2.1]
        simp [hmp]
      · rw [hok.2.2.2.2.2.2.2.1, hm1.2.2.2.2.2.2.2.1]
        simp [hmp]

/-- Witness for C4 at a concrete input: on the log `"Ref Bases: 7"` the
parse succeeds and the `total_bases` field equals its own lookup. -/
theorem parse_logs_field_independence_witness :
    ({ total_bases := some 7 : Stats }).total_bases =
      searchRefBases "Ref Bases: 7".toList :=
  ((parse_logs_field_independence "Ref Bases: 7".toList).2.1
    { total_bases := some 7 } (by decide)).1

/-- C4 counterexample: a present `Total Bases Masked` label whose
percentage text `1.2.3` matches the group pattern but is not a valid
number makes the whole parse raise, rather than dropping that field. -/
theorem parse_mask_log_multidot_raises :
    parse_mask_log_content "Total Bases Masked: 1/2 1.2.3%".toList =
      .error .valueError := by decide

/-- C5: a log containing the line `Total Bases Masked: 150/1000 15.000%`
yields `total_masked_bases = 150` and `masking_percentage = 15.0`; with no
such line both fields are absent; and the two fields are always present
or absent together. -/
theorem parse_mask_log_total_masked_pair :
    (∃ r, parse_mask_log_content
        "Masking statistics\nRef Bases: 1000\nTotal Bases Masked: 150/1000 15.000%\nDone".toList
        = .ok r ∧ r.total_masked_bases = some 150 ∧ r.masking_percentage = some 15) ∧
    (∀ content, searchTotalMasked content = none →
      ∃ r, parse_mask_log_content content = .ok r ∧
        r.total_masked_bases = none ∧ r.masking_percentage = none) ∧
    (∀ content r, parse_mask_log_content content = .ok r →
      (r.total_masked_bases.isSome ↔ r.masking_percentage.isSome)) := by
  refine ⟨?_, ?_, ?_⟩
  · exact ⟨{ total_bases := some 1000, total_masked_bases := some 150,
             masking_percentage := some 15 }, by decide, rfl, rfl⟩
  · intro content h
    unfold parse_mask_log_content
    rw [h]
    exact ⟨maskS3 content, rfl, (maskS3_fields content).2.2.2.1,
      (maskS3_fields content).2.2.2.2.1⟩
  · intro content r hr
    unfold parse_mask_log_content at hr
    split at hr
    · rename_i g ht
      split at hr
      · rename_i q hf
        cases hr
        simp
      · cases hr
    · rename_i ht
      cases hr
      rw [(maskS3_fields content).2.2.2.1, (maskS3_fields content).2.2.2.2.1]
      exact Iff.rfl

/-- Witness for C5: the two general parts applied at the empty log, where
no statistic is found and both fields are absent together. -/
theorem parse_mask_log_total_masked_pair_witness :
    (∃ r, parse_mask_log_content [] = .ok r ∧
      r.total_masked_bases = none ∧ r.masking_percentage = none) ∧
    (({} : Stats).total_masked_bases.isSome ↔ ({} : Stats).masking_percentage.isSome) :=
  ⟨parse_mask_log_total_masked_pair.2.1 [] (by decide),
   parse_mask_log_total_masked_pair.2.2 [] {} (by decide)⟩

/-- C10: `re.search` keeps the earliest position at which the whole
pattern matches: if the pattern succeeds at offset `i` of the text and at
no earlier offset, the search returns that success; consequently on logs
in which a label line occurs twice, both parsers keep the first value. -/
theorem search_first_occurrence :
    (∀ (α : Type) (tryA : List Char → Option α) (s : List Char) (i : Nat) (v : α),
        tryA (s.drop i) = some v →
        (∀ j, j < i → tryA (s.drop j) = none) →
        searchFirst tryA s = some v) ∧
    (∃ r, parse_mask_log_content "Ref Bases: 11\nRef Bases: 22".toList = .ok r ∧
        r.total_bases = some 11) ∧
    (∃ r, parse_map_log_content "mapped: 1.5% 10\nmapped: 2.5% 20".toList = .ok r ∧
        r.mapped_percentage = some (mkRat 3 2) ∧ r.mapped_reads = some 10) := by
  refine ⟨?_, ?_, ?_⟩
  · intro α tryA s
    induction s with
    | nil =>
      intro i v hv h0
      cases i with
      | zero => simpa [searchFirst] using hv
      | succ n =>
        have h1 := h0 0 (Nat.succ_pos n)
        rw [List.drop_nil] at hv
        rw [List.drop_zero] at h1
        rw [h1] at hv
        cases hv
    | cons c rest ih =>
      intro i v hv h0
      cases i with
      | zero =>
        rw [List.drop_zero] at hv
        unfold searchFirst
        rw [hv]
      | succ n =>
        have h1 : tryA (c :: rest) = none := by
          have := h0 0 (Nat.succ_pos n)
          rwa [List.drop_zero] at this
        unfold searchFirst
        rw [h1]
        refine ih n v ?_ ?_
        · rwa [List.drop_succ_cons] at hv
        · intro j hj
          have := h0 (j + 1) (by omega)
          rwa [List.drop_succ_cons] at this
  · exact ⟨{ total_bases := some 11 }, by decide, rfl⟩
  · exact ⟨{ mapped_percentage := some (mkRat 3 2), mapped_reads := some 10 },
      by decide, rfl, rfl⟩

/-- Witness for C10: the general earliest-position part applied to the
`Ref Bases` pattern at offset 1 of a concrete text. -/
theorem search_first_occurrence_witness :
    searchFirst (tryLabelNat "Ref Bases:".toList) "xRef Bases: 5".toList = some 5 :=
  search_first_occurrence.1 Nat (tryLabelNat "Ref Bases:".toList)
    "xRef Bases: 5".toList 1 5 (by decide)
    (by
      intro j hj
      have hj0 : j = 0 := by omega
      subst hj0
      decide)

/-- Appending one mapped element per step is the same as appending the
mapped list. -/
theorem foldl_snoc_eq_append {β γ : Type} (f : β → γ) :
    ∀ (l : List β) (acc : List γ),
      l.foldl (fun a b => a ++ [f b]) acc = acc ++ l.map f := by
  intro l
  induction l with
  | nil => intro acc; simp
  | cons x xs ih =>
    intro acc
    simp only [List.foldl_cons, List.map_cons, ih]
    simp

/-- C6 (amended): an I/O error while reading a sample's masking log
propagates out of the per-sample loop: the run aborts with an error
carrying the file path (and not the sample name), and no later sample is
processed or included in any aggregate. -/
theorem io_error_propagates (fs : FileSystem) (dirs : Dirs)
    (sample : String) (rest : List String)
    (hmask : fs.files (maskLogPath dirs sample) = .unreadable) :
    corpusAggregate fs dirs (sample :: rest) =
      .error (.ioError (maskLogPath dirs sample)) := by
  have hex : fileExists fs (maskLogPath dirs sample) = true := by
    unfold fileExists
    rw [hmask]
  have hpm : parse_mask_log fs (maskLogPath dirs sample) =
      .error (.ioError (maskLogPath dirs sample)) := by
    unfold parse_mask_log readFile
    rw [hmask]
  have hss : sampleStats fs dirs sample =
      .error (.ioError (maskLogPath dirs sample)) := by
    simp [sampleStats, sampleStatsStep1, hex, hpm]
  simp [corpusAggregate, mainLoop, hss]

/-- Witness for C6's amended theorem: the concrete two-sample scenario
with sample `a`'s masking log unreadable. -/
theorem io_error_propagates_witness :
    corpusAggregate fsC6 dirs0 ["a"] =
      .error (.ioError (maskLogPath dirs0 "a")) :=
  io_error_propagates fsC6 dirs0 "a" [] (by decide)

/-- C6 counterexample: with sample `a`'s masking log unreadable and
sample `b` perfectly readable, the whole run returns the I/O error — `b`
is not processed, so the error is not confined to `a`'s extraction step. -/
theorem io_error_aborts_run :
    corpusAggregate fsC6 dirs0 ["a", "b"] =
      .error (.ioError "logs/a_mask.log") := by decide

/-- C8: the coordinate-file output is exactly two comment header lines
followed, for each interval in order, by one line
`chrom<TAB>start<TAB>end<TAB>masked_region_<i+1><TAB>length<TAB>.` with a
trailing newline, where `i` is the 0-based position of the interval. -/
theorem generate_bed_file_format (regions : List Region) :
    generate_bed_file regions =
      ["# BED file of masked regions\n", "# chrom\tstart\tend\tname\tscore\tstrand\n"] ++
      regions.enum.map (fun p =>
        p.2.chrom ++ "\t" ++ toString p.2.start ++ "\t" ++ toString p.2.end_ ++ "\t" ++
        ("masked_region_" ++ toString (p.1 + 1)) ++ "\t" ++ toString p.2.length ++
        "\t" ++ "." ++ "\n") := by
  unfold generate_bed_file
  rw [foldl_snoc_eq_append]
  congr 1
  refine List.map_congr_left ?_
  intro p _
  have h3 : ∀ x : String, "\tmasked_region_" ++ x = "\t" ++ ("masked_region_" ++ x) := by
    intro x
    rw [← String.append_assoc]
    rfl
  have h4 : ("\t" : String) ++ ("." ++ "\n") = "\t.\n" := rfl
  simp only [String.append_assoc, h3, h4]

/-- C9: the extraction pipeline (region scan followed by coordinate-file
emission) is a pure function of the input sequence data: two runs on
identical inputs produce identical chunk lists and byte-identical joined
file content. -/
theorem pipeline_deterministic :
    ∀ records1 records2 : List (String × List Char), records1 = records2 →
      extraction_pipeline records1 = extraction_pipeline records2 ∧
      String.join (extraction_pipeline records1) =
        String.join (extraction_pipeline records2) := by
  intro r1 r2 h
  subst h
  exact ⟨rfl, rfl⟩

/-- Witness for C9 at a concrete input collection. -/
theorem pipeline_deterministic_witness :
    extraction_pipeline [("s", "AN".toList)] =
      extraction_pipeline [("s", "AN".toList)] ∧
    String.join (extraction_pipeline [("s", "AN".toList)]) =
      String.join (extraction_pipeline [("s", "AN".toList)]) :=
  pipeline_deterministic _ _ rfl

/-- Inserting a key not present in an insertion-ordered dict appends. -/
theorem dictInsert_notMem {α : Type} (k : String) (v : α) :
    ∀ d : List (String × α), (∀ p ∈ d, p.1 ≠ k) →
      dictInsert k v d = d ++ [(k, v)] := by
  intro d
  induction d with
  | nil => intro _; rfl
  | cons q rest ih =>
    intro h
    obtain ⟨k0, v0⟩ := q
    have hk : ¬ (k0 = k) := h (k0, v0) (List.mem_cons_self ..)
    unfold dictInsert
    rw [if_neg hk, ih (fun p hp => h p (List.mem_cons_of_mem _ hp))]
    rfl

/-- Looking up a key not present in an insertion-ordered dict yields the
default. -/
theorem dictGetD_notMem {α : Type} (k : String) (dflt : α) :
    ∀ d : List (String × α), (∀ p ∈ d, p.1 ≠ k) →
      dictGetD d k dflt = dflt := by
  intro d
  induction d with
  | nil => intro _; rfl
  | cons q rest ih =>
    intro h
    obtain ⟨k0, v0⟩ := q
    have hk : ¬ (k0 = k) := h (k0, v0) (List.mem_cons_self ..)
    unfold dictGetD
    rw [if_neg hk]
    exact ih (fun p hp => h p (List.mem_cons_of_mem _ hp))

/-- A successful map-log parse leaves every masking statistic absent. -/
theorem parse_map_log_content_mask_fields (content : List Char) (r : Stats)
    (h : parse_map_log_content content = .ok r) :
    r.total_bases = none ∧ r.low_complexity_bases = none ∧
    r.viral_masked_bases = none ∧ r.total_masked_bases = none ∧
    r.masking_percentage = none := by
  have hm1 := mapS1_fields content
  unfold parse_map_log_content at h
  split at h
  · rename_i g hmp
    split at h
    · rename_i q hf
      have hok := applyMatchRate_ok content _ r (by exact hm1.2.2.2.2.2.2.2.2) h
      exact ⟨by rw [hok.1]; exact hm1.2.1, by rw [hok.2.1]; exact hm1.2.2.1,
        by rw [hok.2.2.1]; exact hm1.2.2.2.1,
        by rw [hok.2.2.2.1]; exact hm1.2.2.2.2.1,
        by rw [hok.2.2.2.2.1]; exact hm1.2.2.2.2.2.1⟩
    · cases h
  · rename_i hmp
    have hok := applyMatchRate_ok content (mapS1 content) r hm1.2.2.2.2.2.2.2.2 h
    exact ⟨by rw [hok.1]; exact hm1.2.1, by rw [hok.2.1]; exact hm1.2.2.1,
      by rw [hok.2.2.1]; exact hm1.2.2.2.1,
      by rw [hok.2.2.2.1]; exact hm1.2.2.2.2.1,
      by rw [hok.2.2.2.2.1]; exact hm1.2.2.2.2.2.1⟩

/-- A successful mask-log parse leaves every mapping statistic absent. -/
theorem parse_mask_log_content_map_fields (content : List Char) (r : Stats)
    (h : parse_mask_log_content content = .ok r) :
    r.total_reads = none ∧ r.mapped_percentage = none ∧
    r.mapped_reads = none ∧ r.match_rate = none := by
  have hm3 := maskS3_fields content
  unfold parse_mask_log_content at h
  split at h
  · rename_i g ht
    split at h
    · rename_i q hf
      cases h
      exact ⟨hm3.2.2.2.2.2.1, hm3.2.2.2.2.2.2.1, hm3.2.2.2.2.2.2.2.1,
        hm3.2.2.2.2.2.2.2.2⟩
    · cases h
  · rename_i ht
    cases h
    exact ⟨hm3.2.2.2.2.2.1, hm3.2.2.2.2.2.2.1, hm3.2.2.2.2.2.2.2.1,
      hm3.2.2.2.2.2.2.2.2⟩

/-- File-level variant of `parse_mask_log_content_map_fields`. -/
theorem parse_mask_log_ok_map_fields (fs : FileSystem) (path : String) (m : Stats)
    (h : parse_mask_log fs path = .ok m) :
    m.total_reads = none ∧ m.mapped_percentage = none ∧
    m.mapped_reads = none ∧ m.match_rate = none := by
  unfold parse_mask_log at h
  split at h
  · rename_i content hc
    exact parse_mask_log_content_map_fields content m h
  · cases h

/-- File-level variant of `parse_map_log_content_mask_fields`. -/
theorem parse_map_log_ok_mask_fields (fs : FileSystem) (path : String) (m : Stats)
    (h : parse_map_log fs path = .ok m) :
    m.total_bases = none ∧ m.low_complexity_bases = none ∧
    m.viral_masked_bases = none ∧ m.total_masked_bases = none ∧
    m.masking_percentage = none := by
  unfold parse_map_log at h
  split at h
  · rename_i content hc
    exact parse_map_log_content_mask_fields content m h
  · cases h

/-- After the masking-log step: if the masking log does not exist the
state is still empty, and the mapping fields are absent in any case. -/
theorem sampleStatsStep1_spec (fs : FileSystem) (dirs : Dirs) (x : String)
    (s1 : Stats) (h : sampleStatsStep1 fs dirs x = .ok s1) :
    (fileExists fs (maskLogPath dirs x) = false → s1 = {}) ∧
    s1.total_reads = none ∧ s1.mapped_percentage = none ∧
    s1.mapped_reads = none ∧ s1.match_rate = none := by
  unfold sampleStatsStep1 at h
  split at h
  · rename_i hA
    split at h
    · rename_i m hpm
      cases h
      have hm := parse_mask_log_ok_map_fields fs _ m hpm
      refine ⟨fun hfalse => by simp [hA] at hfalse, ?_, ?_, ?_, ?_⟩ <;>
        simp [updateStats, hm.1, hm.2.1, hm.2.2.1, hm.2.2.2]
    · cases h
  · rename_i hA
    cases h
    exact ⟨fun _ => rfl, rfl, rfl, rfl, rfl⟩

/-- A sample's statistics record: an absent masking log leaves all
masking fields absent, an absent mapping log leaves all mapping fields
absent. -/
theorem sampleStats_spec (fs : FileSystem) (dirs : Dirs) (x : String) (s : Stats)
    (h : sampleStats fs dirs x = .ok s) :
    (fileExists fs (maskLogPath dirs x) = false →
      s.total_bases = none ∧ s.low_complexity_bases = none ∧
      s.viral_masked_bases = none ∧ s.total_masked_bases = none ∧
      s.masking_percentage = none) ∧
    (fileExists fs (mapLogPath dirs x) = false →
      s.total_reads = none ∧ s.mapped_percentage = none ∧
      s.mapped_reads = none ∧ s.match_rate = none) := by
  unfold sampleStats at h
  split at h
  · rename_i s1 h1
    have hs1 := sampleStatsStep1_spec fs dirs x s1 h1
    split at h
    · rename_i hB
      split at h
      · rename_i m hpm
        cases h
        have hm := parse_map_log_ok_mask_fields fs _ m hpm
        constructor
        · intro hmaskAbsent
          have hs1e : s1 = {} := hs1.1 hmaskAbsent
          subst hs1e
          simp [updateStats, hm.1, hm.2.1, hm.2.2.1, hm.2.2.2.1, hm.2.2.2.2]
        · intro hmapAbsent
          simp [hB] at hmapAbsent
      · cases h
    · rename_i hB
      cases h
      constructor
      · intro hmaskAbsent
        rw [hs1.1 hmaskAbsent]
        exact ⟨rfl, rfl, rfl, rfl, rfl⟩
      · intro _
        exact ⟨hs1.2.1, hs1.2.2.1, hs1.2.2.2.1, hs1.2.2.2.2⟩
  · cases h

/-- A successful run of the per-sample loop on fresh samples appends, in
order, one `stats_dict` entry per sample (whose statistics computation
succeeded) and one `regions_dict` entry per sample having a masked
FASTA. -/
theorem mainLoop_ok (fs : FileSystem) (dirs : Dirs) :
    ∀ (samples : List String) (sd : List (String × Stats))
      (rd : List (String × List Region)) (sd2 : List (String × Stats))
      (rd2 : List (String × List Region)),
      samples.Nodup →
      (∀ x ∈ samples, ∀ p ∈ sd, p.1 ≠ x) →
      (∀ x ∈ samples, ∀ p ∈ rd, p.1 ≠ x) →
      mainLoop fs dirs samples sd rd = .ok (sd2, rd2) →
      sd2 = sd ++ samples.map (fun x => (x, statsOf fs dirs x)) ∧
      (∀ x ∈ samples, sampleStats fs dirs x = .ok (statsOf fs dirs x)) ∧
      rd2 = rd ++ expectedRegions fs dirs samples := by
  intro samples
  induction samples with
  | nil =>
    intro sd rd sd2 rd2 _ _ _ h
    unfold mainLoop at h
    cases h
    simp [expectedRegions]
  | cons x rest ih =>
    intro sd rd sd2 rd2 hnd hsd hrd h
    have hnd2 : rest.Nodup := (List.nodup_cons.mp hnd).2
    have hxrest : x ∉ rest := (List.nodup_cons.mp hnd).1
    unfold mainLoop at h
    split at h
    · cases h
    · rename_i stats hss
      have hxsd : ∀ p ∈ sd, p.1 ≠ x := hsd x (List.mem_cons_self ..)
      have hins : dictInsert x stats sd = sd ++ [(x, stats)] :=
        dictInsert_notMem x stats sd hxsd
      have hstats : statsOf fs dirs x = stats := by
        unfold statsOf
        rw [hss]
      have hsd2 : ∀ y ∈ rest, ∀ p ∈ sd ++ [(x, stats)], p.1 ≠ y := by
        intro y hy p hp
        rcases List.mem_append.mp hp with h1 | h1
        · exact hsd y (List.mem_cons_of_mem _ hy) p h1
        · simp only [List.mem_singleton] at h1
          subst h1
          intro hxy
          simp only at hxy
          subst hxy
          exact hxrest hy
      split at h
      · rename_i regions hreg
        have hxrd : ∀ p ∈ rd, p.1 ≠ x := hrd x (List.mem_cons_self ..)
        have hinsr : dictInsert x regions rd = rd ++ [(x, regions)] :=
          dictInsert_notMem x regions rd hxrd
        rw [hins, hinsr] at h
        have hrd2 : ∀ y ∈ rest, ∀ p ∈ rd ++ [(x, regions)], p.1 ≠ y := by
          intro y hy p hp
          rcases List.mem_append.mp hp with h1 | h1
          · exact hrd y (List.mem_cons_of_mem _ hy) p h1
          · simp only [List.mem_singleton] at h1
            subst h1
            intro hxy
            simp only at hxy
            subst hxy
            exact hxrest hy
        obtain ⟨e1, e2, e3⟩ := ih (sd ++ [(x, stats)]) (rd ++ [(x, regions)])
          sd2 rd2 hnd2 hsd2 hrd2 h
        refine ⟨?_, ?_, ?_⟩
        · rw [e1, List.append_assoc]
          simp [hstats]
        · intro y hy
          rcases List.mem_cons.mp hy with h1 | h1
          · subst h1
            rw [hstats]
            exact hss
          · exact e2 y h1
        · rw [e3, List.append_assoc]
          simp [expectedRegions, hreg]
      · rename_i hreg
        rw [hins] at h
        obtain ⟨e1, e2, e3⟩ := ih (sd ++ [(x, stats)]) rd sd2 rd2 hnd2 hsd2
          (fun y hy => hrd y (List.mem_cons_of_mem _ hy)) h
        refine ⟨?_, ?_, ?_⟩
        · rw [e1, List.append_assoc]
          simp [hstats]
        · intro y hy
          rcases List.mem_cons.mp hy with h1 | h1
          · subst h1
            rw [hstats]
            exact hss
          · exact e2 y h1
        · rw [e3]
          simp [expectedRegions, hreg]

/-- C7: on a successful run, every declared sample appears in the
aggregate, in the supplied order; a sample with no masking (resp.
mapping) log has all corresponding statistics fields absent; a sample
with no masked FASTA contributes an empty interval list. -/
theorem corpusAggregate_spec (fs : FileSystem) (dirs : Dirs)
    (samples : List String) (recs : List SampleRecord)
    (hnd : samples.Nodup)
    (h : corpusAggregate fs dirs samples = .ok recs) :
    recs.map SampleRecord.sample_id = samples ∧
    ∀ rec ∈ recs,
      (fileExists fs (maskLogPath dirs rec.sample_id) = false →
        rec.stats.total_bases = none ∧ rec.stats.low_complexity_bases = none ∧
        rec.stats.viral_masked_bases = none ∧ rec.stats.total_masked_bases = none ∧
        rec.stats.masking_percentage = none) ∧
      (fileExists fs (mapLogPath dirs rec.sample_id) = false →
        rec.stats.total_reads = none ∧ rec.stats.mapped_percentage = none ∧
        rec.stats.mapped_reads = none ∧ rec.stats.match_rate = none) ∧
      (fs.fastas (maskedFastaPath dirs rec.sample_id) = none →
        rec.intervals = []) := by
  unfold corpusAggregate at h
  split at h
  · rename_i p sd rd hml
    cases h
    obtain ⟨e1, e2, e3⟩ := mainLoop_ok fs dirs samples [] [] sd rd hnd
      (by simp) (by simp) hml
    rw [List.nil_append] at e1 e3
    constructor
    · rw [e1]
      simp [List.map_map, Function.comp_def]
    · intro rec hrec
      rw [e1] at hrec
      simp only [List.map_map, List.mem_map, Function.comp_def] at hrec
      obtain ⟨x, hx, rfl⟩ := hrec
      have hsx : sampleStats fs dirs x = .ok (statsOf fs dirs x) := e2 x hx
      have hspec := sampleStats_spec fs dirs x _ hsx
      refine ⟨hspec.1, hspec.2, ?_⟩
      intro hfasta
      have hfasta2 : fs.fastas (maskedFastaPath dirs x) = none := hfasta
      show dictGetD rd x [] = []
      rw [e3]
      apply dictGetD_notMem
      intro p hp
      simp only [expectedRegions, List.mem_filterMap] at hp
      obtain ⟨y, hy, hgy⟩ := hp
      cases hr : sampleRegions fs dirs y with
      | none => rw [hr] at hgy; cases hgy
      | some rs =>
        rw [hr] at hgy
        have hgy2 : (y, rs) = p := by simpa using hgy
        intro hpx
        rw [← hgy2] at hpx
        simp only at hpx
        subst hpx
        have hnone : sampleRegions fs dirs y = none := by
          unfold sampleRegions
          rw [hfasta2]
          rfl
        rw [hnone] at hr
        cases hr
  · cases h

/-- Witness for C7: a single declared sample with no files at all still
appears in the aggregate with an empty record and empty interval list. -/
theorem corpusAggregate_spec_witness :
    ([⟨"s1", {}, []⟩] : List SampleRecord).map SampleRecord.sample_id = ["s1"] :=
  (corpusAggregate_spec fsEmpty dirs0 ["s1"] [⟨"s1", {}, []⟩]
    (by decide) (by decide)).1

end MaskReport
